import Mathlib

/-!
libpyside: cleanup registry, keyword dispatch and dynamic meta-object construction.

A shallow embedding of `src/libpyside/pyside.cpp`.

Conventions of the embedding.

* C strings (`const char*`, `QByteArray` built from one) are Lean `String`s; they are
  NUL-free by construction on the C side.
* A Python dictionary walked with `PyDict_Next` is the list of its `(key, value)` pairs in
  iteration order.
* Calls into collaborators that are not part of this file (`DynamicQMetaObject::addSignal`,
  `PyObject_CallObject`, `qWarning`, the C++ destructor, ...) are recorded, in program order,
  as events of a trace.
* Reads through an invalid pointer or index are reported as a `Fault`.
-/

set_option autoImplicit false

namespace PySide

/-! ## Cleanup registry (`pyside.cpp`, lines 42 and 94-105) -/

/-- The process state seen by the cleanup registry.  `cleanupFunctionList` is the static
`QStack<CleanupFunction>`, top of the stack first; `world` is whatever the hooks act on;
`invoked` logs the hooks called so far, oldest first. -/
structure Session (H ω : Type) where
  cleanupFunctionList : List H
  world : ω
  invoked : List H

/-- The state at program start: the static stack is empty and nothing has been called. -/
def Session.start {H ω : Type} (w : ω) : Session H ω :=
  { cleanupFunctionList := [], world := w, invoked := [] }

/-- The body of `registerCleanupFunction`: `cleanupFunctionList.push(func)`. -/
def registerCleanupFunction {H ω : Type} (func : H) (s : Session H ω) : Session H ω :=
  { s with cleanupFunctionList := func :: s.cleanupFunctionList }

/-- The loop of `runCleanupFunctions`: while the stack is not empty, pop `f` and call it.
`call f` is the effect of the hook `f` on the world; a hook does not touch the stack. -/
def runCleanupLoop {H ω : Type} (call : H → ω → ω) : List H → ω → List H → Session H ω
  | [], w, log => { cleanupFunctionList := [], world := w, invoked := log }
  | f :: rest, w, log => runCleanupLoop call rest (call f w) (log ++ [f])

/-- The function `runCleanupFunctions`. -/
def runCleanupFunctions {H ω : Type} (call : H → ω → ω) (s : Session H ω) : Session H ω :=
  runCleanupLoop call s.cleanupFunctionList s.world s.invoked

/-- Registering the hooks of `hs` one after the other, first element first. -/
def registerAll {H ω : Type} (hs : List H) (s : Session H ω) : Session H ω :=
  hs.foldl (fun acc h => registerCleanupFunction h acc) s

/-! ## The reflective descriptor `QMetaObject` (Qt, used through its public interface) -/

/-- What one level of a meta-object declares: its class name and the names of its
properties, the normalized signatures of its signals and of its slots. -/
structure QMetaObjectData where
  className : String
  properties : List String
  signalSigs : List String
  slotSigs : List String
deriving DecidableEq, Repr

/-- A meta-object: its own level `d` and the levels reached through `d.superdata`, nearest
first. -/
structure QMetaObject where
  d : QMetaObjectData
  ancestors : List QMetaObjectData
deriving DecidableEq, Repr

namespace QMetaObject

/-- The field `d.superdata`: the parent meta-object, `none` for a null pointer. -/
def superdata (m : QMetaObject) : Option QMetaObject :=
  match m.ancestors with
  | [] => none
  | a :: rest => some { d := a, ancestors := rest }

/-- All levels of the chain, root first (the order of Qt's absolute indices). -/
def levels (m : QMetaObject) : List QMetaObjectData :=
  m.ancestors.reverse ++ [m.d]

/-- Position of `s` in `xs`, `-1` when absent. -/
def indexIn (xs : List String) (s : String) : Int :=
  if s ∈ xs then (xs.indexOf s : Int) else -1

/-- The lookup `indexOfProperty(name)`: searches the class and its super classes. -/
def indexOfProperty (m : QMetaObject) (name : String) : Int :=
  indexIn (m.levels.flatMap QMetaObjectData.properties) name

/-- The lookup `indexOfSignal(signature)`: searches the class and its super classes. -/
def indexOfSignal (m : QMetaObject) (sig : String) : Int :=
  indexIn (m.levels.flatMap QMetaObjectData.signalSigs) sig

/-- The lookup `indexOfSlot(signature)`: searches the class and its super classes. -/
def indexOfSlot (m : QMetaObject) (sig : String) : Int :=
  indexIn (m.levels.flatMap QMetaObjectData.slotSigs) sig

end QMetaObject

/-! ## Keyword dispatch: `fillQtProperties` (`pyside.cpp`, lines 57-92) -/

/-- A Python object obtained by an attribute lookup on `qObj`: its identity and whether
`PySide::Property::isPropertyType` holds of it. -/
structure PyAttr where
  ident : Nat
  isPropertyType : Bool
deriving DecidableEq, Repr

/-- The object `qObj` as `fillQtProperties` uses it: the two attribute lookups, `none` for
a `NULL` result. -/
structure PyQObject where
  getAttrString : String → Option PyAttr
  genericGetAttr : String → Option PyAttr

/-- The calls `fillQtProperties` makes on its collaborators. -/
inductive Action (V : Type) where
  /-- The call `PyObject_CallObject(propSetter, (value,))`. -/
  | callObject (propSetter : PyAttr) (value : V)
  /-- The call `PySide::Property::setValue(attr, qObj, value)`. -/
  | propertySetValue (attr : PyAttr) (value : V)
  /-- The call `PySide::Signal::connect(qObj, signal, value)`. -/
  | signalConnect (signal : String) (value : V)
  /-- The call `PyErr_Format(exception, ...)` with the formatted message. -/
  | errFormat (exception : String) (message : String)
deriving DecidableEq, Repr

/-- Comparison of character sequences as `std::string` compares them: lexicographic on
the character codes, a proper prefix being smaller. -/
def charsLess : List Char → List Char → Bool
  | _, [] => false
  | [], _ :: _ => true
  | a :: as, b :: bs =>
    if a.toNat < b.toNat then true
    else if b.toNat < a.toNat then false
    else charsLess as bs

/-- The operator `<` between a C string and a `std::string`. -/
def strLess (a b : String) : Bool := charsLess a.data b.data

/-- The loop of `std::lower_bound(blackList, blackList + blackListSize, value)`: `first`
and `len` are the loop variables, the first argument bounds the number of iterations. -/
def lowerBoundLoop (blackList : List String) (value : String) : Nat → Nat → Nat → Nat
  | 0, first, _ => first
  | fuel + 1, first, len =>
    if len = 0 then first
    else
      let half := len / 2
      let mid := first + half
      if strLess (blackList.getD mid "") value then
        lowerBoundLoop blackList value fuel (mid + 1) (len - half - 1)
      else
        lowerBoundLoop blackList value fuel first half

/-- The call `std::binary_search(blackList, blackList + blackListSize, std::string(key))`;
`blackListSize` is the length of the list.  `len` at least halves in every iteration, so
`len` iterations suffice. -/
def binarySearch (blackList : List String) (value : String) : Bool :=
  let i := lowerBoundLoop blackList value blackList.length 0 blackList.length
  decide (i ≠ blackList.length) && !strLess value (blackList.getD i "")

/-- The guard of line 64 negated: the key is skipped. -/
def blackListed (blackList : List String) (key : String) : Bool :=
  !(blackList.length == 0 || !binarySearch blackList key)

/-- Lines 67-68: `propName[0] = std::toupper(propName[0]); propName.prepend("set")`. -/
def setterName (key : String) : String :=
  match key.data with
  | [] => "set"
  | c :: cs => "set" ++ String.mk (c.toUpper :: cs)

/-- Lines 70-78: the property branch for one key.  A failed lookup leaves the error
indicator of the interpreter as the lookup set it; the trace holds the calls made here. -/
def setProperty {V : Type} (qObj : PyQObject) (key : String) (value : V) : List (Action V) :=
  match qObj.getAttrString (setterName key) with
  | some propSetter => [Action.callObject propSetter value]
  | none =>
    match qObj.genericGetAttr key with
    | some attr => if attr.isPropertyType then [Action.propertySetValue attr value] else []
    | none => []

/-- The function `fillQtProperties`: the calls made, in order, and the value returned. -/
def fillQtProperties {V : Type} (qObj : PyQObject) (metaObj : QMetaObject)
    (kwds : List (String × V)) (blackList : List String) : List (Action V) × Bool :=
  match kwds with
  | [] => ([], true)
  | (key, value) :: rest =>
    if blackList.length == 0 || !binarySearch blackList key then
      if metaObj.indexOfProperty key ≠ -1 then
        let r := fillQtProperties qObj metaObj rest blackList
        (setProperty qObj key value ++ r.1, r.2)
      else
        let propName := key ++ "()"
        if metaObj.indexOfSignal propName ≠ -1 then
          let r := fillQtProperties qObj metaObj rest blackList
          (Action.signalConnect ("2" ++ propName) value :: r.1, r.2)
        else
          ([Action.errFormat "AttributeError"
              ("'" ++ propName ++ "' is not a Qt property or a signal")], false)
    else
      fillQtProperties qObj metaObj rest blackList

/-- A small meta-object used in the examples: class `QWidget` with the property
`windowTitle`, the read-only property `isActiveWindow` and a signal taking a point, above it
`QObject` with the property `objectName` and the two `destroyed` signals. -/
def exampleWidgetMeta : QMetaObject :=
  { d := { className := "QWidget", properties := ["windowTitle", "isActiveWindow"],
           signalSigs := ["customContextMenuRequested(QPoint)"],
           slotSigs := ["close()", "show()"] },
    ancestors := [{ className := "QObject", properties := ["objectName"],
                    signalSigs := ["destroyed(QObject*)", "destroyed()"],
                    slotSigs := ["deleteLater()"] }] }

/-- A widget object: it has the setter methods `setWindowTitle` and `setObjectName`, no
`setIsActiveWindow`, and its attribute `isActiveWindow` is a plain method. -/
def exampleWidget : PyQObject :=
  { getAttrString := fun n =>
      if n = "setWindowTitle" then some { ident := 1, isPropertyType := false }
      else if n = "setObjectName" then some { ident := 2, isPropertyType := false }
      else none,
    genericGetAttr := fun n =>
      if n = "isActiveWindow" then some { ident := 3, isPropertyType := false } else none }

/-- The message `fillQtProperties` formats around a quoted name. -/
def notPropertyOrSignal (quoted : String) : String :=
  "'" ++ quoted ++ "' is not a Qt property or a signal"

/-- The key is dealt with without an error: it is skipped by the blacklist, or names a
property of the meta-object, or `key()` is one of its signals. -/
def handled (metaObj : QMetaObject) (blackList : List String) (key : String) : Bool :=
  blackListed blackList key || decide (metaObj.indexOfProperty key ≠ -1) ||
    decide (metaObj.indexOfSignal (key ++ "()") ≠ -1)

/-- The dispatch of one handled key in the words of the interface table: nothing for a
skipped key; for a property, the attribute `set<Key>` of the object is called with the
value when the object has it, else the value goes to `Property::setValue` when the attribute
`key` is a PySide property, else nothing is done; for any other key the value is connected
to the signal `key()`. -/
def routedActions {V : Type} (qObj : PyQObject) (metaObj : QMetaObject)
    (blackList : List String) (kv : String × V) : List (Action V) :=
  if blackListed blackList kv.1 then []
  else if metaObj.indexOfProperty kv.1 ≠ -1 then
    match qObj.getAttrString (setterName kv.1), qObj.genericGetAttr kv.1 with
    | some propSetter, _ => [Action.callObject propSetter kv.2]
    | none, some attr =>
      if attr.isPropertyType then [Action.propertySetValue attr kv.2] else []
    | none, none => []
  else [Action.signalConnect ("2" ++ (kv.1 ++ "()")) kv.2]

/-- The value `v` reaches a setter in the trace: a setter attribute is called with it or a
PySide property is set to it. -/
def RoutedToSetter {V : Type} (trace : List (Action V)) (v : V) : Prop :=
  ∃ a, Action.callObject a v ∈ trace ∨ Action.propertySetValue a v ∈ trace

/-! ## Building the descriptor of a Python subclass: `initQObjectSubType`
(`pyside.cpp`, lines 149-226) -/

/-- An access the C++ standard leaves undefined. -/
inductive Fault where
  /-- The macro `PyTuple_GET_ITEM(bases, i)` with `i` not below the size of `bases`. -/
  | basesIndexOutOfRange (i : Nat)
  /-- The expression `baseMo->d.superdata` with `baseMo` null. -/
  | nullMetaObject
  /-- The expression `slotInfo[1]` on a list of one element. -/
  | slotInfoIndexOutOfRange (signature : String)
  /-- The expression `typeName[i]` behind the terminator of the name. -/
  | readPastTerminator (index : Nat)
deriving DecidableEq, Repr

/-- The result of a computation that may run into undefined behaviour. -/
inductive Outcome (α : Type) where
  | ok (a : α)
  | fault (f : Fault)
deriving DecidableEq, Repr

/-- A Python type object found in the tuple of bases: whether `PyType_IsSubtype(base,
qObjType)` holds, what `Shiboken::ObjectType::getTypeUserData` returns for it (`none` for
null) and whether `Shiboken::ObjectType::isUserType` holds. -/
structure PyTypeObject where
  name : String
  isQObjectSubtype : Bool
  typeUserData : Option QMetaObject
  isUserType : Bool
deriving DecidableEq, Repr

/-- A value of the class dictionary, by the tests `initQObjectSubType` makes on it. -/
inductive PyValue where
  /-- The case `value->ob_type == &PySidePropertyType`. -/
  | property (ident : Nat)
  /-- The case `value->ob_type == &PySideSignalType`: the array `signatures` of the signal,
  `none` for a null entry. -/
  | signal (signatures : List (Option String))
  /-- The case `PyFunction_Check(value)`: the list stored under `PYSIDE_SLOT_LIST_ATTR`,
  `none` when the function has no such attribute. -/
  | function (slotList : Option (List String))
  /-- Any other value. -/
  | other (ident : Nat)
deriving DecidableEq, Repr

/-- The tuple `args` = `(name, bases, attrs)` handed to the type initialiser. -/
structure ClassArgs where
  className : String
  bases : List PyTypeObject
  attrs : List (String × PyValue)
deriving DecidableEq, Repr

/-- The macro `PyTuple_GET_SIZE(args)`: `args` has the three items read at lines 152, 154
and 178. -/
def ClassArgs.tupleSize (_args : ClassArgs) : Nat := 3

/-- The calls made while the class dictionary is scanned and afterwards. -/
inductive MoCall where
  /-- The assignment `data->signalName = strdup(signalName)`. -/
  | setSignalName (name : String)
  /-- The call `mo->addSignal(sig)`. -/
  | addSignal (sig : String)
  /-- The call `mo->addSlot(slotInfo[1], slotInfo[0])`. -/
  | addSlot (signature : String) (type : String)
  /-- The call `mo->addProperty(propPair.first, propPair.second)`. -/
  | addProperty (name : String) (value : PyValue)
deriving DecidableEq, Repr

/-- What `initQObjectSubType` leaves behind: the `qWarning` messages, the Python error
indicator (no statement of the function sets it), the `DynamicQMetaObject(className,
baseMo)` attached with `setTypeUserData` if any, and the calls made on it. -/
structure InitResult where
  warnings : List String
  pyErr : Option String
  typeUserData : Option (String × QMetaObject)
  calls : List MoCall
deriving DecidableEq, Repr

/-- The loop of lines 158-168, `remaining` iterations from index `i` on: the value of
`baseMo` after the loop. -/
def scanBases (bases : List PyTypeObject) : Nat → Nat → Outcome (Option QMetaObject)
  | 0, _ => Outcome.ok none
  | remaining + 1, i =>
    match bases.get? i with
    | none => Outcome.fault (Fault.basesIndexOutOfRange i)
    | some base =>
      if base.isQObjectSubtype then
        if !base.isUserType then
          match base.typeUserData with
          | none => Outcome.fault Fault.nullMetaObject
          | some baseMo => Outcome.ok baseMo.superdata
        else Outcome.ok base.typeUserData
      else scanBases bases remaining (i + 1)

/-- Splitting at every occurrence of `sep`, as `QByteArray::split` does. -/
def splitChars (sep : Char) : List Char → List (List Char)
  | [] => [[]]
  | c :: cs =>
    if c = sep then [] :: splitChars sep cs
    else
      match splitChars sep cs with
      | [] => [[c]]
      | part :: parts => (c :: part) :: parts

/-- The call `sig.split(sep)`. -/
def split (sep : Char) (sig : String) : List String :=
  (splitChars sep sig.data).map String.mk

/-- Lines 199-203: the signature `signalName(signatures[i])`. -/
def signalSignature (signalName : String) (signature : Option String) : String :=
  match signature with
  | some t => signalName ++ "(" ++ t ++ ")"
  | none => signalName ++ "(" ++ ")"

/-- The loop of lines 198-206 over the overloads of one signal. -/
def scanSignal (baseMo : QMetaObject) (signalName : String) :
    List (Option String) → List MoCall
  | [] => []
  | t :: rest =>
    let sig := signalSignature signalName t
    if baseMo.indexOfSignal sig = -1 then
      MoCall.addSignal sig :: scanSignal baseMo signalName rest
    else scanSignal baseMo signalName rest

/-- The loop of lines 210-218 over the signature list of one function. -/
def scanSlots (baseMo : QMetaObject) : List String → Outcome (List MoCall)
  | [] => Outcome.ok []
  | signature :: rest =>
    match split ' ' signature with
    | type :: sig :: _ =>
      match scanSlots baseMo rest with
      | Outcome.fault f => Outcome.fault f
      | Outcome.ok calls =>
        if baseMo.indexOfSlot sig = -1 then Outcome.ok (MoCall.addSlot sig type :: calls)
        else Outcome.ok calls
    | _ => Outcome.fault (Fault.slotInfoIndexOutOfRange signature)

/-- The loop of lines 188-221 over the class dictionary: the calls made, and the list
`properties` at the end of the loop. -/
def scanAttrs (baseMo : QMetaObject) :
    List (String × PyValue) → Outcome (List MoCall × List (String × PyValue))
  | [] => Outcome.ok ([], [])
  | (key, value) :: rest =>
    match value with
    | PyValue.property ident =>
      match scanAttrs baseMo rest with
      | Outcome.fault f => Outcome.fault f
      | Outcome.ok (calls, properties) =>
        Outcome.ok (calls, (key, PyValue.property ident) :: properties)
    | PyValue.signal signatures =>
      match scanAttrs baseMo rest with
      | Outcome.fault f => Outcome.fault f
      | Outcome.ok (calls, properties) =>
        Outcome.ok (MoCall.setSignalName key :: scanSignal baseMo key signatures ++ calls,
          properties)
    | PyValue.function (some signatureList) =>
      match scanSlots baseMo signatureList with
      | Outcome.fault f => Outcome.fault f
      | Outcome.ok slotCalls =>
        match scanAttrs baseMo rest with
        | Outcome.fault f => Outcome.fault f
        | Outcome.ok (calls, properties) => Outcome.ok (slotCalls ++ calls, properties)
    | _ => scanAttrs baseMo rest

/-- The text of the `qWarning` of line 170. -/
def missingBaseWarning (className : String) : String :=
  "Sub class of QObject not inheriting QObject!? Crash will happen when using "
    ++ className ++ "."

/-- The function `initQObjectSubType`. -/
def initQObjectSubType (args : ClassArgs) : Outcome InitResult :=
  let numBases := args.tupleSize
  match scanBases args.bases numBases 0 with
  | Outcome.fault f => Outcome.fault f
  | Outcome.ok none =>
    Outcome.ok { warnings := [missingBaseWarning args.className], pyErr := none,
                 typeUserData := none, calls := [] }
  | Outcome.ok (some baseMo) =>
    match scanAttrs baseMo args.attrs with
    | Outcome.fault f => Outcome.fault f
    | Outcome.ok (calls, properties) =>
      Outcome.ok { warnings := [], pyErr := none,
                   typeUserData := some (args.className, baseMo),
                   calls := calls ++ properties.map (fun p => MoCall.addProperty p.1 p.2) }

/-- The descriptor a wrapped C++ class carries as type user data: the dynamic meta-object
`initDynamicMetaObject` builds over the meta-object `base` of the C++ class. -/
def wrappedTypeUserData (typeName : String) (base : QMetaObject) : QMetaObject :=
  { d := { className := typeName, properties := [], signalSigs := [], slotSigs := [] },
    ancestors := base.d :: base.ancestors }

/-- The Python type of the wrapped C++ class `QWidget`. -/
def pyQWidgetType : PyTypeObject :=
  { name := "PySide.QtGui.QWidget", isQObjectSubtype := true,
    typeUserData := some (wrappedTypeUserData "QWidget" exampleWidgetMeta),
    isUserType := false }

/-- A Python type that is no subtype of `QObject`. -/
def pyMixinType (name : String) : PyTypeObject :=
  { name := name, isQObjectSubtype := false, typeUserData := none, isUserType := true }

/-- All signal signatures a meta-object has, its super classes included. -/
def QMetaObject.allSignals (m : QMetaObject) : List String :=
  m.levels.flatMap QMetaObjectData.signalSigs

/-- All slot signatures a meta-object has, its super classes included. -/
def QMetaObject.allSlots (m : QMetaObject) : List String :=
  m.levels.flatMap QMetaObjectData.slotSigs

/-- The signatures `N(t)` the signal attributes of a class dictionary declare, in the
order of the scan. -/
def declaredSignals (attrs : List (String × PyValue)) : List String :=
  attrs.flatMap fun kv =>
    match kv.2 with
    | PyValue.signal signatures => signatures.map (signalSignature kv.1)
    | _ => []

/-- The entries of the slot signature lists of the functions of a class dictionary, in the
order of the scan. -/
def slotEntries (attrs : List (String × PyValue)) : List String :=
  attrs.flatMap fun kv =>
    match kv.2 with
    | PyValue.function (some signatureList) => signatureList
    | _ => []

/-- The property-typed attributes of a class dictionary, in the order of the scan. -/
def propertyAttrs (attrs : List (String × PyValue)) : List (String × PyValue) :=
  attrs.filter fun kv =>
    match kv.2 with
    | PyValue.property _ => true
    | _ => false

/-- The signatures passed to `addSignal`, in call order. -/
def addedSignals (calls : List MoCall) : List String :=
  calls.filterMap fun c =>
    match c with
    | MoCall.addSignal sig => some sig
    | _ => none

/-- The pairs (signature, type) passed to `addSlot`, in call order. -/
def addedSlots (calls : List MoCall) : List (String × String) :=
  calls.filterMap fun c =>
    match c with
    | MoCall.addSlot sig type => some (sig, type)
    | _ => none

/-- The pairs (name, value) passed to `addProperty`, in call order. -/
def addedProperties (calls : List MoCall) : List (String × PyValue) :=
  calls.filterMap fun c =>
    match c with
    | MoCall.addProperty name value => some (name, value)
    | _ => none

/-- The call is an `addProperty`. -/
def MoCall.isAddProperty (c : MoCall) : Bool :=
  match c with
  | MoCall.addProperty _ _ => true
  | _ => false

/-- What one entry of a slot signature list contributes: the second and the first part of
the entry split at spaces, unless the base has a slot with that second part as signature. -/
def slotPair (baseMo : QMetaObject) (entry : String) : Option (String × String) :=
  match split ' ' entry with
  | type :: sig :: _ => if baseMo.indexOfSlot sig = -1 then some (sig, type) else none
  | _ => none

/-- What one attribute of the class dictionary contributes during the scan. -/
def memberCalls (baseMo : QMetaObject) (kv : String × PyValue) : List MoCall :=
  match kv.2 with
  | PyValue.signal signatures =>
    MoCall.setSignalName kv.1 ::
      ((signatures.map (signalSignature kv.1)).filter
        (fun sig => decide (baseMo.indexOfSignal sig = -1))).map MoCall.addSignal
  | PyValue.function (some signatureList) =>
    (signatureList.filterMap (slotPair baseMo)).map (fun p => MoCall.addSlot p.1 p.2)
  | _ => []

/-- The name of a slot: its signature up to the opening parenthesis. -/
def slotName (sig : String) : String :=
  String.mk (sig.data.takeWhile (fun c => c != '('))

/-- The base declares a slot of that name, with whatever parameters. -/
def declaresSlotName (baseMo : QMetaObject) (name : String) : Bool :=
  baseMo.allSlots.any (fun sig => slotName sig == name)

/-- The meta-object level of `QObject` in the examples. -/
def exampleQObjectData : QMetaObjectData :=
  { className := "QObject", properties := ["objectName"],
    signalSigs := ["destroyed(QObject*)", "destroyed()"], slotSigs := ["deleteLater()"] }

/-- The descriptor of a Python class `Model(QObject)` that declares the signal `changed()`
and the slot `reset()`. -/
def exampleModelMeta : QMetaObject :=
  { d := { className := "Model", properties := [], signalSigs := ["changed()"],
           slotSigs := ["reset()"] },
    ancestors := [exampleQObjectData] }

/-- The Python class `Model(QObject)`, a user type. -/
def pyModelType : PyTypeObject :=
  { name := "Model", isQObjectSubtype := true, typeUserData := some exampleModelMeta,
    isUserType := true }

/-- The class statement `class SubModel(Model)`, whose body declares the signal `changed`
with the overloads `()` and `(int)`, two properties, and a function with two slot
signatures. -/
def exampleSubModelArgs : ClassArgs :=
  { className := "SubModel", bases := [pyModelType],
    attrs := [("title", PyValue.property 1),
              ("changed", PyValue.signal [none, some "int"]),
              ("reset", PyValue.function (some ["void reset()", "void reset(int)"])),
              ("count", PyValue.property 2),
              ("helper", PyValue.function none)] }

/-- The class statement `class Panel(A, B, C, QWidget)` with an empty body: the only
subtype of `QObject` is the fourth base. -/
def exampleFourBasesArgs : ClassArgs :=
  { className := "Panel",
    bases := [pyMixinType "A", pyMixinType "B", pyMixinType "C", pyQWidgetType],
    attrs := [] }

/-- A class statement none of whose three bases is a subtype of `QObject`. -/
def exampleNoQObjectArgs : ClassArgs :=
  { className := "Orphan", bases := [pyMixinType "A", pyMixinType "B", pyMixinType "C"],
    attrs := [("changed", PyValue.signal [none]), ("title", PyValue.property 1)] }

/-- The class statement `class Dialog(QWidget)` whose body has a function with the slot
signatures `void close(int)` and `int resize(int, int)`. -/
def exampleDialogArgs : ClassArgs :=
  { className := "Dialog", bases := [pyQWidgetType],
    attrs := [("close",
      PyValue.function (some ["void close(int)", "int resize(int, int)"]))] }

/-- The caller is told of a failure: the function comes back with the Python error
indicator set. -/
def ReportedAsError (res : Outcome InitResult) : Prop :=
  ∃ r, res = Outcome.ok r ∧ r.pyErr ≠ none

/-! ## Shutdown: `destructionVisitor` and `destroyQCoreApplication`
(`pyside.cpp`, lines 107-136) -/

/-- A wrapper object as the shutdown code reads it: its address `ident`, whether
`PyObject_TypeCheck(pyObj, pyQObjectType)` holds, the bit `hasOwnership` and the C++
pointer `cptr` it wraps. -/
structure SbkObject where
  ident : Nat
  isQObject : Bool
  hasOwnership : Bool
  cptr : Nat
deriving DecidableEq, Repr

/-- The calls of the shutdown code on its collaborators. -/
inductive TeardownCall where
  /-- The call `SignalManager::instance().clear()`. -/
  | signalManagerClear
  /-- The call `Shiboken::callCppDestructor<QObject>(cptr)`. -/
  | callCppDestructor (cptr : Nat)
  /-- The statement `delete app`. -/
  | deleteApp (app : Nat)
deriving DecidableEq, Repr

/-- The function `destructionVisitor`; `pyQApp` is `realData[0]`, `none` for null. -/
def destructionVisitor (pyObj : SbkObject) (pyQApp : Option Nat) : List TeardownCall :=
  if some pyObj.ident ≠ pyQApp ∧ pyObj.isQObject = true then
    if pyObj.hasOwnership then [TeardownCall.callCppDestructor pyObj.cptr] else []
  else []

/-- The binding manager as the shutdown code uses it: `retrieveWrapper` gives the address
of the wrapper registered for a C++ pointer (`none` for null), and `visited` are the handles
`visitAllPyObjects` passes to its visitor, in order. -/
structure BindingManager where
  retrieveWrapper : Nat → Option Nat
  visited : List SbkObject

/-- The call `bm.visitAllPyObjects(&destructionVisitor, &data)`. -/
def BindingManager.visitAllPyObjects (bm : BindingManager)
    (visitor : SbkObject → List TeardownCall) : List TeardownCall :=
  bm.visited.flatMap visitor

/-- The function `destroyQCoreApplication`; `app` is `QCoreApplication::instance()`, `none`
for null. -/
def destroyQCoreApplication (app : Option Nat) (bm : BindingManager) : List TeardownCall :=
  TeardownCall.signalManagerClear ::
    match app with
    | none => []
    | some a =>
      let pyQApp := bm.retrieveWrapper a
      bm.visitAllPyObjects (fun pyObj => destructionVisitor pyObj pyQApp)
        ++ [TeardownCall.deleteApp a]

/-! ## The name of a wrapped type: `initDynamicMetaObject` (`pyside.cpp`, lines 138-147) -/

/-- The loop of lines 142-144.  `mem` is the memory of the name, terminator included; the
loop variable `i` runs from the first argument minus one down to 0; `off` is how far
`typeName` has been advanced, so `typeName[i]` is `mem[off + i]`.  The result is the final
offset. -/
def stripLoop (mem : List Char) : Nat → Nat → Outcome Nat
  | 0, off => Outcome.ok off
  | i + 1, off =>
    match mem.get? (off + i) with
    | none => Outcome.fault (Fault.readPastTerminator (off + i))
    | some c =>
      if c = '.' then stripLoop mem i (off + i + 1)
      else stripLoop mem i off

/-- The function `initDynamicMetaObject`: the `DynamicQMetaObject(typeName, base)` stored
as type user data, as the pair of its name and its base. -/
def initDynamicMetaObject (tpName : String) (base : QMetaObject) :
    Outcome (String × QMetaObject) :=
  let mem := tpName.data ++ [Char.ofNat 0]
  let len := tpName.data.length
  match stripLoop mem len 0 with
  | Outcome.fault f => Outcome.fault f
  | Outcome.ok off =>
    Outcome.ok (String.mk ((mem.drop off).takeWhile (fun c => c != Char.ofNat 0)), base)

/-- The positions the loop of lines 142-144 reads, as indices from the start of the name,
in reading order; the arguments are those of `stripLoop`.  A read outside `mem` is the last
one listed. -/
def stripReads (mem : List Char) : Nat → Nat → List Nat
  | 0, _ => []
  | i + 1, off =>
    match mem.get? (off + i) with
    | none => [off + i]
    | some c =>
      if c = '.' then (off + i) :: stripReads mem i (off + i + 1)
      else (off + i) :: stripReads mem i off

/-- The positions `initDynamicMetaObject` reads in its loop for the type name `tpName`. -/
def nameReads (tpName : String) : List Nat :=
  stripReads (tpName.data ++ [Char.ofNat 0]) tpName.data.length 0

/-- The final path segment of a dotted name: its longest suffix without a `.`. -/
def finalSegment (s : String) : String :=
  String.mk (s.data.reverse.takeWhile (fun c => c != '.')).reverse

/-- The static meta-object of the C++ class `QObject`. -/
def exampleQtObjectMeta : QMetaObject :=
  { d := exampleQObjectData, ancestors := [] }

/-- The binding manager of a small program: the wrapper of the application object (at
address 10, for the C++ pointer 100), two owned widgets, a widget owned by C++, and an owned
handle that is no `QObject`. -/
def exampleBindingManager : BindingManager :=
  { retrieveWrapper := fun cptr => if cptr = 100 then some 10 else none,
    visited :=
      [{ ident := 10, isQObject := true, hasOwnership := true, cptr := 100 },
       { ident := 11, isQObject := true, hasOwnership := true, cptr := 101 },
       { ident := 12, isQObject := true, hasOwnership := false, cptr := 102 },
       { ident := 13, isQObject := false, hasOwnership := true, cptr := 103 },
       { ident := 14, isQObject := true, hasOwnership := true, cptr := 104 }] }

/-! ## Theorems -/

theorem registerAll_list {H ω : Type} (hs : List H) (s : Session H ω) :
    (registerAll hs s).cleanupFunctionList = hs.reverse ++ s.cleanupFunctionList ∧
    (registerAll hs s).world = s.world ∧ (registerAll hs s).invoked = s.invoked := by
  induction hs generalizing s with
  | nil => simp [registerAll]
  | cons h t ih =>
    have hstep : registerAll (h :: t) s = registerAll t (registerCleanupFunction h s) := rfl
    obtain ⟨h1, h2, h3⟩ := ih (registerCleanupFunction h s)
    rw [hstep, h1, h2, h3]
    simp [registerCleanupFunction]

theorem runCleanupLoop_spec {H ω : Type} (call : H → ω → ω) (st : List H) (w : ω)
    (log : List H) :
    runCleanupLoop call st w log =
      { cleanupFunctionList := [], world := st.foldl (fun acc f => call f acc) w,
        invoked := log ++ st } := by
  induction st generalizing w log with
  | nil => simp [runCleanupLoop]
  | cons f rest ih => simp [runCleanupLoop, ih]

/-- C1: after registering `h1..hn` in that order from program start, `runCleanupFunctions`
calls exactly `hn, ..., h1` in that order (each registration once), applies their effects in
that order, leaves the stack empty, and a second call directly afterwards calls no hook and
changes nothing.  Started from any state `s`, the hooks already on the stack of `s` follow
`hn, ..., h1`, top first. -/
theorem runCleanupFunctions_reverse_order {H ω : Type} (call : H → ω → ω) (hs : List H)
    (w : ω) (s : Session H ω) :
    (runCleanupFunctions call (registerAll hs (Session.start w))).invoked = hs.reverse ∧
    (runCleanupFunctions call (registerAll hs (Session.start w))).world
      = hs.foldr call w ∧
    (runCleanupFunctions call (registerAll hs (Session.start w))).cleanupFunctionList = [] ∧
    runCleanupFunctions call (runCleanupFunctions call (registerAll hs (Session.start w)))
      = runCleanupFunctions call (registerAll hs (Session.start w)) ∧
    (runCleanupFunctions call (registerAll hs s)).invoked
      = s.invoked ++ (hs.reverse ++ s.cleanupFunctionList) ∧
    (runCleanupFunctions call (registerAll hs s)).cleanupFunctionList = [] ∧
    runCleanupFunctions call (runCleanupFunctions call (registerAll hs s))
      = runCleanupFunctions call (registerAll hs s) := by
  obtain ⟨h1, h2, h3⟩ := registerAll_list hs (Session.start w : Session H ω)
  obtain ⟨g1, g2, g3⟩ := registerAll_list hs s
  have hrun : runCleanupFunctions call (registerAll hs (Session.start w)) =
      { cleanupFunctionList := [], world := hs.foldr call w, invoked := hs.reverse } := by
    rw [runCleanupFunctions, runCleanupLoop_spec, h1, h2, h3]
    simp [Session.start, List.foldl_reverse]
  have grun : runCleanupFunctions call (registerAll hs s) =
      { cleanupFunctionList := [],
        world := (hs.reverse ++ s.cleanupFunctionList).foldl (fun acc f => call f acc) s.world,
        invoked := s.invoked ++ (hs.reverse ++ s.cleanupFunctionList) } := by
    rw [runCleanupFunctions, runCleanupLoop_spec, g1, g2, g3]
  rw [hrun, grun]
  refine ⟨rfl, rfl, rfl, ?_, rfl, rfl, ?_⟩ <;> simp [runCleanupFunctions, runCleanupLoop]

/-! ### Keyword dispatch -/

theorem setProperty_eq_routed {V : Type} (qObj : PyQObject) (metaObj : QMetaObject)
    (blackList : List String) (key : String) (value : V)
    (hb : blackListed blackList key = false) (hp : metaObj.indexOfProperty key ≠ -1) :
    setProperty qObj key value = routedActions qObj metaObj blackList (key, value) := by
  have hp' : ¬ metaObj.indexOfProperty key = -1 := hp
  simp only [setProperty, routedActions, hb]
  cases qObj.getAttrString (setterName key) <;> cases qObj.genericGetAttr key <;> simp [hp']

theorem guard_eq_not_blackListed (blackList : List String) (key : String) :
    (blackList.length == 0 || !binarySearch blackList key) = !blackListed blackList key := by
  simp [blackListed]

/-- The whole behaviour of `fillQtProperties`: the handled keys in front of the first
unhandled one are dispatched in order; the first unhandled key, if any, ends the walk with
one `AttributeError`. -/
theorem fillQtProperties_eq {V : Type} (qObj : PyQObject) (metaObj : QMetaObject)
    (blackList : List String) (kwds : List (String × V)) :
    fillQtProperties qObj metaObj kwds blackList =
      (((kwds.takeWhile (fun kv => handled metaObj blackList kv.1)).flatMap
          (routedActions qObj metaObj blackList)) ++
        (match kwds.dropWhile (fun kv => handled metaObj blackList kv.1) with
         | [] => []
         | kv :: _ => [Action.errFormat "AttributeError"
              ("'" ++ (kv.1 ++ "()") ++ "' is not a Qt property or a signal")]),
       kwds.all (fun kv => handled metaObj blackList kv.1)) := by
  induction kwds with
  | nil => simp [fillQtProperties]
  | cons kv rest ih =>
    obtain ⟨key, value⟩ := kv
    rw [fillQtProperties, guard_eq_not_blackListed]
    by_cases hb : blackListed blackList key = true
    · have hh : handled metaObj blackList key = true := by simp [handled, hb]
      simp [ih, hh, List.takeWhile_cons, List.dropWhile_cons, routedActions, hb]
    · have hb' : blackListed blackList key = false := by simpa using hb
      simp only [hb', Bool.not_false, if_true]
      by_cases hp : metaObj.indexOfProperty key ≠ -1
      · have hh : handled metaObj blackList key = true := by simp [handled, hp]
        rw [if_pos hp, ih, setProperty_eq_routed qObj metaObj blackList key value hb' hp]
        simp [hh, List.takeWhile_cons, List.dropWhile_cons]
      · rw [if_neg hp]
        have hp' : metaObj.indexOfProperty key = -1 := by simpa using hp
        by_cases hs : metaObj.indexOfSignal (key ++ "()") ≠ -1
        · have hh : handled metaObj blackList key = true := by simp [handled, hs]
          rw [if_pos hs, ih]
          simp [hh, List.takeWhile_cons, List.dropWhile_cons, routedActions, hb', hp']
        · rw [if_neg hs]
          have hs' : metaObj.indexOfSignal (key ++ "()") = -1 := by simpa using hs
          have hh : handled metaObj blackList key = false := by simp [handled, hb', hp', hs']
          simp [hh, List.takeWhile_cons, List.dropWhile_cons]

theorem string_append_right_cancel (a b c : String) (h : a ++ c = b ++ c) : a = b := by
  have h' : (a ++ c).data = (b ++ c).data := by rw [h]
  simp only [String.data_append] at h'
  exact String.ext (List.append_cancel_right h')

theorem string_append_left_cancel (a b c : String) (h : c ++ a = c ++ b) : a = b := by
  have h' : (c ++ a).data = (c ++ b).data := by rw [h]
  simp only [String.data_append] at h'
  exact String.ext (List.append_cancel_left h')

theorem signalConnect_mem_routed {V : Type} (qObj : PyQObject) (metaObj : QMetaObject)
    (blackList : List String) (kv : String × V) (s : String) (val : V)
    (h : Action.signalConnect s val ∈ routedActions qObj metaObj blackList kv) :
    metaObj.indexOfProperty kv.1 = -1 ∧ s = "2" ++ (kv.1 ++ "()") := by
  unfold routedActions at h
  by_cases hb : blackListed blackList kv.1 = true
  · simp [hb] at h
  · by_cases hp : metaObj.indexOfProperty kv.1 = -1
    · simp [hb, hp] at h
      exact ⟨hp, h.1⟩
    · exfalso
      cases hg : qObj.getAttrString (setterName kv.1) <;>
        cases hq : qObj.genericGetAttr kv.1 <;> simp [hb, hp, hg, hq] at h

/-- C2 (amended): `fillQtProperties` walks the keyword map in order and stops at the first
key that is neither skipped by the blacklist, nor a property, nor a signal `K()`.  It returns
true exactly when there is no such key.  Every key in front of that point is dispatched as
`routedActions` says, in order and once: a property key goes to the setter attribute
`set<K>` of the object if it has one, else to `Property::setValue` if attribute `K` is a
PySide property, else nowhere; any other key is connected to the signal `2K()`.  The value
of a property key is never connected to a signal, even if the signal `K()` exists. -/
theorem fillQtProperties_dispatch {V : Type} (qObj : PyQObject) (metaObj : QMetaObject)
    (blackList : List String) (kwds : List (String × V)) :
    (fillQtProperties qObj metaObj kwds blackList).2
        = kwds.all (fun kv => handled metaObj blackList kv.1) ∧
    (∃ tail, (fillQtProperties qObj metaObj kwds blackList).1
        = (kwds.takeWhile (fun kv => handled metaObj blackList kv.1)).flatMap
            (routedActions qObj metaObj blackList) ++ tail ∧
      (kwds.all (fun kv => handled metaObj blackList kv.1) = true →
        tail = [] ∧ (fillQtProperties qObj metaObj kwds blackList).1
          = kwds.flatMap (routedActions qObj metaObj blackList)) ∧
      (kwds.all (fun kv => handled metaObj blackList kv.1) = false →
        ∃ msg, tail = [Action.errFormat "AttributeError" msg])) ∧
    (∀ K val, metaObj.indexOfProperty K ≠ -1 →
      Action.signalConnect ("2" ++ (K ++ "()")) val
        ∉ (fillQtProperties qObj metaObj kwds blackList).1) := by
  rw [fillQtProperties_eq]
  refine ⟨rfl, ⟨_, rfl, ?_, ?_⟩, ?_⟩
  · intro hall
    have htw : kwds.takeWhile (fun kv => handled metaObj blackList kv.1) = kwds := by
      rw [List.takeWhile_eq_self_iff]
      intro kv hkv
      exact (List.all_eq_true.mp hall) kv hkv
    have hdw : kwds.dropWhile (fun kv => handled metaObj blackList kv.1) = [] := by
      rw [List.dropWhile_eq_nil_iff]
      intro kv hkv
      exact (List.all_eq_true.mp hall) kv hkv
    simp [htw, hdw]
  · intro hall
    cases hdw : kwds.dropWhile (fun kv => handled metaObj blackList kv.1) with
    | nil =>
      rw [List.dropWhile_eq_nil_iff] at hdw
      have : kwds.all (fun kv => handled metaObj blackList kv.1) = true :=
        List.all_eq_true.mpr hdw
      rw [this] at hall
      cases hall
    | cons kv rest => exact ⟨_, rfl⟩
  · intro K val hK hmem
    simp only [List.mem_append, List.mem_flatMap] at hmem
    rcases hmem with ⟨kv, _, hkv⟩ | htail
    · obtain ⟨hp, hs⟩ := signalConnect_mem_routed qObj metaObj blackList kv _ val hkv
      have h1 := string_append_left_cancel _ _ _ hs
      have h2 := string_append_right_cancel _ _ _ h1
      rw [h2] at hK
      exact hK hp
    · cases hdw : kwds.dropWhile (fun kv => handled metaObj blackList kv.1) with
      | nil => simp [hdw] at htail
      | cons kv rest => simp [hdw] at htail

/-- C2 (as stated, refuted): a key naming a property is not always routed to a setter.
First input: the key `windowTitle` follows an unmatched key, the walk has stopped before it.
Second input: the read-only property `isActiveWindow` has no setter attribute and its
attribute is no PySide property, the value is dropped and the call still returns true. -/
theorem fillQtProperties_property_not_routed :
    ((("windowTitle", 2) ∈ [("bogus", 1), ("windowTitle", 2)] ∧
      blackListed [] "windowTitle" = false ∧
      exampleWidgetMeta.indexOfProperty "windowTitle" ≠ -1) ∧
     ¬ RoutedToSetter
        (fillQtProperties exampleWidget exampleWidgetMeta
          [("bogus", 1), ("windowTitle", 2)] []).1 2) ∧
    ((blackListed [] "isActiveWindow" = false ∧
      exampleWidgetMeta.indexOfProperty "isActiveWindow" ≠ -1 ∧
      fillQtProperties exampleWidget exampleWidgetMeta [("isActiveWindow", 1)] []
        = ([], true)) ∧
     ¬ RoutedToSetter
        (fillQtProperties exampleWidget exampleWidgetMeta [("isActiveWindow", 1)] []).1 1) := by
  have e1 : fillQtProperties exampleWidget exampleWidgetMeta
      [("bogus", 1), ("windowTitle", 2)] []
      = ([Action.errFormat "AttributeError" (notPropertyOrSignal "bogus()")], false) := by
    decide
  have e2 : fillQtProperties exampleWidget exampleWidgetMeta [("isActiveWindow", 1)] []
      = (([] : List (Action Nat)), true) := by decide
  refine ⟨⟨by decide, ?_⟩, ⟨⟨by decide, by decide, e2⟩, ?_⟩⟩
  · rw [e1]; rintro ⟨a, h | h⟩ <;> simp at h
  · rw [e2]; rintro ⟨a, h | h⟩ <;> simp at h

/-- C3: for the single unmatched key `bogus`, `fillQtProperties` returns false and formats
one `AttributeError`; the name quoted in its message is `bogus()`, the buffer after the
signal lookup appended `()` to it, and not the key `bogus` the caller supplied. -/
theorem fillQtProperties_error_quotes_signal_form :
    blackListed [] "bogus" = false ∧
    exampleWidgetMeta.indexOfProperty "bogus" = -1 ∧
    exampleWidgetMeta.indexOfSignal "bogus()" = -1 ∧
    fillQtProperties exampleWidget exampleWidgetMeta [("bogus", 1)] []
      = ([Action.errFormat "AttributeError" "'bogus()' is not a Qt property or a signal"],
         false) ∧
    fillQtProperties exampleWidget exampleWidgetMeta [("bogus", 1)] []
      ≠ ([Action.errFormat "AttributeError" (notPropertyOrSignal "bogus")], false) := by
  decide

/-! ### Scanning the class dictionary -/

theorem indexIn_eq_neg_one (xs : List String) (s : String) :
    QMetaObject.indexIn xs s = -1 ↔ s ∉ xs := by
  unfold QMetaObject.indexIn
  by_cases h : s ∈ xs
  · simp only [h, if_true, not_true_eq_false, iff_false]
    have : (0 : Int) ≤ (List.indexOf s xs : Int) := Int.ofNat_nonneg _
    omega
  · simp [h]

theorem indexOfSignal_eq_neg_one (m : QMetaObject) (s : String) :
    m.indexOfSignal s = -1 ↔ s ∉ m.allSignals :=
  indexIn_eq_neg_one _ s

theorem indexOfSlot_eq_neg_one (m : QMetaObject) (s : String) :
    m.indexOfSlot s = -1 ↔ s ∉ m.allSlots :=
  indexIn_eq_neg_one _ s

theorem scanSignal_eq (baseMo : QMetaObject) (signalName : String)
    (signatures : List (Option String)) :
    scanSignal baseMo signalName signatures =
      ((signatures.map (signalSignature signalName)).filter
        (fun sig => decide (baseMo.indexOfSignal sig = -1))).map MoCall.addSignal := by
  induction signatures with
  | nil => rfl
  | cons t rest ih =>
    by_cases h : baseMo.indexOfSignal (signalSignature signalName t) = -1
    · simp [scanSignal, h, ih, List.filter_cons]
    · simp [scanSignal, h, ih, List.filter_cons]

theorem splitChars_ne_nil (sep : Char) (l : List Char) : splitChars sep l ≠ [] := by
  cases l with
  | nil => simp [splitChars]
  | cons c cs =>
    rw [splitChars]
    split
    · simp
    · split <;> simp

theorem splitChars_two_parts (l : List Char) (h : ' ' ∈ l) :
    ∃ a b rest, splitChars ' ' l = a :: b :: rest := by
  induction l with
  | nil => simp at h
  | cons c cs ih =>
    by_cases hc : c = ' '
    · cases hs : splitChars ' ' cs with
      | nil => exact absurd hs (splitChars_ne_nil ' ' cs)
      | cons p ps => exact ⟨[], p, ps, by simp [splitChars, hc, hs]⟩
    · have hmem : ' ' ∈ cs := by
        rcases List.mem_cons.mp h with h1 | h1
        · exact absurd h1.symm hc
        · exact h1
      obtain ⟨a, b, rest, hab⟩ := ih hmem
      exact ⟨c :: a, b, rest, by simp [splitChars, hc, hab]⟩

theorem split_two_parts (entry : String) (h : ' ' ∈ entry.data) :
    ∃ type sig rest, split ' ' entry = type :: sig :: rest := by
  obtain ⟨a, b, rest, hab⟩ := splitChars_two_parts entry.data h
  exact ⟨String.mk a, String.mk b, rest.map String.mk, by simp [split, hab]⟩

theorem scanSlots_eq (baseMo : QMetaObject) (signatureList : List String)
    (h : ∀ e ∈ signatureList, ' ' ∈ e.data) :
    scanSlots baseMo signatureList = Outcome.ok
      ((signatureList.filterMap (slotPair baseMo)).map (fun p => MoCall.addSlot p.1 p.2)) := by
  induction signatureList with
  | nil => rfl
  | cons e rest ih =>
    have hrest := ih (fun x hx => h x (List.mem_cons_of_mem _ hx))
    obtain ⟨type, sig, more, hsplit⟩ := split_two_parts e (h e (List.mem_cons_self _ _))
    by_cases hs : baseMo.indexOfSlot sig = -1
    · simp [scanSlots, hsplit, hrest, slotPair, hs, List.filterMap_cons]
    · simp [scanSlots, hsplit, hrest, slotPair, hs, List.filterMap_cons]

theorem scanAttrs_eq (baseMo : QMetaObject) (attrs : List (String × PyValue))
    (h : ∀ e ∈ slotEntries attrs, ' ' ∈ e.data) :
    scanAttrs baseMo attrs =
      Outcome.ok (attrs.flatMap (memberCalls baseMo), propertyAttrs attrs) := by
  induction attrs with
  | nil => rfl
  | cons kv rest ih =>
    obtain ⟨key, value⟩ := kv
    have hrest : ∀ e ∈ slotEntries rest, ' ' ∈ e.data := by
      intro e he
      apply h e
      simp only [slotEntries, List.flatMap_cons, List.mem_append]
      exact Or.inr he
    have ih' := ih hrest
    cases value with
    | property ident =>
      simp [scanAttrs, ih', memberCalls, propertyAttrs, List.filter_cons]
    | signal signatures =>
      simp [scanAttrs, ih', memberCalls, propertyAttrs, List.filter_cons, scanSignal_eq]
    | function slotList =>
      cases slotList with
      | none => simp [scanAttrs, ih', memberCalls, propertyAttrs, List.filter_cons]
      | some signatureList =>
        have hl : ∀ e ∈ signatureList, ' ' ∈ e.data := by
          intro e he
          apply h e
          simp only [slotEntries, List.flatMap_cons, List.mem_append]
          exact Or.inl he
        simp [scanAttrs, ih', memberCalls, propertyAttrs, List.filter_cons,
          scanSlots_eq baseMo signatureList hl]
    | other ident =>
      simp [scanAttrs, ih', memberCalls, propertyAttrs, List.filter_cons]

/-- With a base descriptor found and every slot entry holding a space, the function runs
to its end: the descriptor is attached, the members are added in scan order and the
properties after them. -/
theorem initQObjectSubType_eq (args : ClassArgs) (baseMo : QMetaObject)
    (hbase : scanBases args.bases args.tupleSize 0 = Outcome.ok (some baseMo))
    (hwf : ∀ e ∈ slotEntries args.attrs, ' ' ∈ e.data) :
    initQObjectSubType args = Outcome.ok
      { warnings := [], pyErr := none, typeUserData := some (args.className, baseMo),
        calls := args.attrs.flatMap (memberCalls baseMo) ++
          (propertyAttrs args.attrs).map (fun p => MoCall.addProperty p.1 p.2) } := by
  simp [initQObjectSubType, hbase, scanAttrs_eq baseMo args.attrs hwf]

theorem memberCalls_not_addProperty (baseMo : QMetaObject) (kv : String × PyValue)
    (c : MoCall) (hc : c ∈ memberCalls baseMo kv) : c.isAddProperty = false := by
  unfold memberCalls at hc
  split at hc
  · simp only [List.mem_cons, List.mem_map] at hc
    rcases hc with rfl | ⟨s, _, rfl⟩ <;> rfl
  · simp only [List.mem_map] at hc
    obtain ⟨p, _, rfl⟩ := hc
    rfl
  · simp at hc

theorem addedSignals_memberCalls (baseMo : QMetaObject) (attrs : List (String × PyValue)) :
    addedSignals (attrs.flatMap (memberCalls baseMo)) =
      (declaredSignals attrs).filter (fun s => decide (baseMo.indexOfSignal s = -1)) := by
  induction attrs with
  | nil => rfl
  | cons kv rest ih =>
    have ih' : List.filterMap (fun c => match c with
        | MoCall.addSignal sig => some sig
        | _ => none) (rest.flatMap (memberCalls baseMo)) =
        List.filter (fun s => decide (baseMo.indexOfSignal s = -1)) (declaredSignals rest) := ih
    obtain ⟨key, value⟩ := kv
    simp only [addedSignals, declaredSignals, List.flatMap_cons, List.filterMap_append,
      List.filter_append]
    congr 1
    cases value with
    | signal signatures =>
      simp only [memberCalls, List.filterMap_cons, List.filterMap_map]
      induction (List.filter (fun sig => decide (baseMo.indexOfSignal sig = -1))
        (List.map (signalSignature key) signatures)) with
      | nil => rfl
      | cons a l ihl => simp [List.filterMap_cons, ihl]
    | function slotList =>
      cases slotList with
      | none => simp [memberCalls]
      | some l =>
        simp only [memberCalls, List.filterMap_map, List.filter_nil]
        induction (List.filterMap (slotPair baseMo) l) with
        | nil => rfl
        | cons a t iht => simp [List.filterMap_cons]
    | property ident => simp [memberCalls]
    | other ident => simp [memberCalls]

theorem addedSlots_memberCalls (baseMo : QMetaObject) (attrs : List (String × PyValue)) :
    addedSlots (attrs.flatMap (memberCalls baseMo)) =
      (slotEntries attrs).filterMap (slotPair baseMo) := by
  induction attrs with
  | nil => rfl
  | cons kv rest ih =>
    have ih' : List.filterMap (fun c => match c with
        | MoCall.addSlot sig type => some (sig, type)
        | _ => none) (rest.flatMap (memberCalls baseMo)) =
        List.filterMap (slotPair baseMo) (slotEntries rest) := ih
    obtain ⟨key, value⟩ := kv
    simp only [addedSlots, slotEntries, List.flatMap_cons, List.filterMap_append]
    congr 1
    cases value with
    | signal signatures =>
      simp only [memberCalls, List.filterMap_cons, List.filterMap_map, List.filterMap_nil]
      induction (List.filter (fun sig => decide (baseMo.indexOfSignal sig = -1))
        (List.map (signalSignature key) signatures)) with
      | nil => rfl
      | cons a l ihl => simp [List.filterMap_cons]
    | function slotList =>
      cases slotList with
      | none => simp [memberCalls]
      | some l =>
        simp only [memberCalls, List.filterMap_map]
        induction (List.filterMap (slotPair baseMo) l) with
        | nil => rfl
        | cons a t iht => simp [List.filterMap_cons, iht]
    | property ident => simp [memberCalls]
    | other ident => simp [memberCalls]

theorem addedProperties_append (pre : List MoCall) (props : List (String × PyValue))
    (hpre : ∀ c ∈ pre, c.isAddProperty = false) :
    addedProperties (pre ++ props.map (fun p => MoCall.addProperty p.1 p.2)) = props := by
  have h1 : addedProperties pre = [] := by
    induction pre with
    | nil => rfl
    | cons c cs ih =>
      have hc := hpre c (List.mem_cons_self _ _)
      have hcs := ih (fun x hx => hpre x (List.mem_cons_of_mem _ hx))
      cases c <;> simp_all [addedProperties, MoCall.isAddProperty, List.filterMap_cons]
  have h2 : addedProperties (props.map (fun p => MoCall.addProperty p.1 p.2)) = props := by
    induction props with
    | nil => rfl
    | cons p ps ih => simp_all [addedProperties, List.filterMap_cons]
  unfold addedProperties at h1 h2 ⊢
  rw [List.filterMap_append, h1, h2, List.nil_append]

theorem mem_addedSignals (calls : List MoCall) (s : String) :
    s ∈ addedSignals calls ↔ MoCall.addSignal s ∈ calls := by
  unfold addedSignals
  rw [List.mem_filterMap]
  constructor
  · rintro ⟨c, hc, hs⟩
    cases c <;> simp at hs
    subst hs
    exact hc
  · intro h
    exact ⟨_, h, rfl⟩

theorem mem_addedSlots (calls : List MoCall) (sig type : String) :
    (sig, type) ∈ addedSlots calls ↔ MoCall.addSlot sig type ∈ calls := by
  unfold addedSlots
  rw [List.mem_filterMap]
  constructor
  · rintro ⟨c, hc, hs⟩
    cases c <;> simp at hs
    obtain ⟨h1, h2⟩ := hs
    subst h1 h2
    exact hc
  · intro h
    exact ⟨_, h, rfl⟩

theorem splitChars_no_sep (sep : Char) (l : List Char) (h : sep ∉ l) :
    splitChars sep l = [l] := by
  induction l with
  | nil => rfl
  | cons c cs ih =>
    have hc : ¬ c = sep := fun e => h (by simp [e])
    have hcs : sep ∉ cs := fun e => h (List.mem_cons_of_mem _ e)
    simp [splitChars, hc, ih hcs]

theorem splitChars_one_sep (sep : Char) (l r : List Char) (hl : sep ∉ l) (hr : sep ∉ r) :
    splitChars sep (l ++ sep :: r) = [l, r] := by
  induction l with
  | nil => simp [splitChars, splitChars_no_sep sep r hr]
  | cons c cs ih =>
    have hc : ¬ c = sep := fun e => hl (by simp [e])
    have hcs : sep ∉ cs := fun e => hl (List.mem_cons_of_mem _ e)
    simp [splitChars, hc, ih hcs]

theorem split_type_signature (type sig : String) (ht : ' ' ∉ type.data)
    (hs : ' ' ∉ sig.data) : split ' ' (type ++ " " ++ sig) = [type, sig] := by
  have hdata : (type ++ " " ++ sig).data = type.data ++ ' ' :: sig.data := by
    simp [String.data_append]
  simp [split, hdata, splitChars_one_sep ' ' _ _ ht hs]

theorem addedSignals_append_properties (pre : List MoCall)
    (props : List (String × PyValue)) :
    addedSignals (pre ++ props.map (fun p => MoCall.addProperty p.1 p.2))
      = addedSignals pre := by
  unfold addedSignals
  rw [List.filterMap_append]
  have : List.filterMap (fun c => match c with
      | MoCall.addSignal sig => some sig
      | _ => none) (props.map (fun p => MoCall.addProperty p.1 p.2)) = [] := by
    induction props with
    | nil => rfl
    | cons p ps ih => simp [List.filterMap_cons, ih]
  rw [this, List.append_nil]

theorem addedSlots_append_properties (pre : List MoCall)
    (props : List (String × PyValue)) :
    addedSlots (pre ++ props.map (fun p => MoCall.addProperty p.1 p.2))
      = addedSlots pre := by
  unfold addedSlots
  rw [List.filterMap_append]
  have : List.filterMap (fun c => match c with
      | MoCall.addSlot sig type => some (sig, type)
      | _ => none) (props.map (fun p => MoCall.addProperty p.1 p.2)) = [] := by
    induction props with
    | nil => rfl
    | cons p ps ih => simp [List.filterMap_cons, ih]
  rw [this, List.append_nil]

/-! ### The descriptor of a subclass -/

/-- C4: when the base descriptor is found, the signatures passed to `addSignal`, in call
order, are exactly the declared signatures `N(ti)` that are not among the signals of the
base descriptor; so a declared `N(ti)` is added if and only if the base has no signal with
the identical signature. -/
theorem initQObjectSubType_signals (args : ClassArgs) (baseMo : QMetaObject)
    (hbase : scanBases args.bases args.tupleSize 0 = Outcome.ok (some baseMo))
    (hwf : ∀ e ∈ slotEntries args.attrs, ' ' ∈ e.data) :
    ∃ r, initQObjectSubType args = Outcome.ok r ∧
      r.typeUserData = some (args.className, baseMo) ∧
      addedSignals r.calls =
        (declaredSignals args.attrs).filter (fun s => decide (s ∉ baseMo.allSignals)) ∧
      ∀ N ts t, (N, PyValue.signal ts) ∈ args.attrs → t ∈ ts →
        (MoCall.addSignal (signalSignature N t) ∈ r.calls ↔
          signalSignature N t ∉ baseMo.allSignals) := by
  refine ⟨_, initQObjectSubType_eq args baseMo hbase hwf, rfl, ?_, ?_⟩
  · show addedSignals (args.attrs.flatMap (memberCalls baseMo) ++
        (propertyAttrs args.attrs).map (fun p => MoCall.addProperty p.1 p.2)) = _
    rw [addedSignals_append_properties, addedSignals_memberCalls]
    apply List.filter_congr
    intro s _
    simp [indexOfSignal_eq_neg_one]
  · intro N ts t hN ht
    show MoCall.addSignal (signalSignature N t) ∈
        args.attrs.flatMap (memberCalls baseMo) ++
          (propertyAttrs args.attrs).map (fun p => MoCall.addProperty p.1 p.2) ↔ _
    constructor
    · intro hmem
      rcases List.mem_append.mp hmem with h1 | h1
      · have h2 : signalSignature N t ∈
            addedSignals (args.attrs.flatMap (memberCalls baseMo)) :=
          (mem_addedSignals _ _).mpr h1
        rw [addedSignals_memberCalls, List.mem_filter] at h2
        exact (indexOfSignal_eq_neg_one _ _).mp (by simpa using h2.2)
      · simp at h1
    · intro hnot
      apply List.mem_append_left
      rw [← mem_addedSignals, addedSignals_memberCalls, List.mem_filter]
      refine ⟨?_, by simpa using (indexOfSignal_eq_neg_one _ _).mpr hnot⟩
      simp only [declaredSignals, List.mem_flatMap]
      exact ⟨(N, PyValue.signal ts), hN, List.mem_map.mpr ⟨t, ht, rfl⟩⟩

/-- C4 at `class SubModel(Model)`: the base has `changed()`; declaring `changed()` and
`changed(int)` adds the one entry `changed(int)`. -/
theorem initQObjectSubType_signals_witness :
    scanBases exampleSubModelArgs.bases exampleSubModelArgs.tupleSize 0
      = Outcome.ok (some exampleModelMeta) ∧
    (∀ e ∈ slotEntries exampleSubModelArgs.attrs, ' ' ∈ e.data) ∧
    ∃ r, initQObjectSubType exampleSubModelArgs = Outcome.ok r ∧
      addedSignals r.calls = ["changed(int)"] ∧
      MoCall.addSignal "changed()" ∉ r.calls := by
  refine ⟨by decide, by decide, ?_⟩
  obtain ⟨r, hr, -, hs, hiff⟩ :=
    initQObjectSubType_signals exampleSubModelArgs exampleModelMeta (by decide) (by decide)
  refine ⟨r, hr, ?_, ?_⟩
  · rw [hs]; decide
  · have h := hiff "changed" [none, some "int"] none (by decide) (by decide)
    intro hmem
    exact (h.mp hmem) (by decide)

/-- C5: when the base descriptor is found, the calls split into the calls of the scan,
none of which is an `addProperty`, followed by one `addProperty` per property-typed
attribute, in the order the scan met them; all `addSignal` and `addSlot` calls lie in the
first part. -/
theorem initQObjectSubType_properties_last (args : ClassArgs) (baseMo : QMetaObject)
    (hbase : scanBases args.bases args.tupleSize 0 = Outcome.ok (some baseMo))
    (hwf : ∀ e ∈ slotEntries args.attrs, ' ' ∈ e.data) :
    ∃ r pre, initQObjectSubType args = Outcome.ok r ∧
      r.calls = pre ++ (propertyAttrs args.attrs).map (fun p => MoCall.addProperty p.1 p.2) ∧
      (∀ c ∈ pre, c.isAddProperty = false) ∧
      addedSignals r.calls = addedSignals pre ∧
      addedSlots r.calls = addedSlots pre ∧
      addedProperties r.calls = propertyAttrs args.attrs := by
  have hpre : ∀ c ∈ args.attrs.flatMap (memberCalls baseMo), c.isAddProperty = false := by
    intro c hc
    obtain ⟨kv, _, hkv⟩ := List.mem_flatMap.mp hc
    exact memberCalls_not_addProperty baseMo kv c hkv
  refine ⟨_, args.attrs.flatMap (memberCalls baseMo),
    initQObjectSubType_eq args baseMo hbase hwf, rfl, hpre, ?_, ?_, ?_⟩
  · exact addedSignals_append_properties _ _
  · exact addedSlots_append_properties _ _
  · exact addedProperties_append _ _ hpre

/-- C5 at `class SubModel(Model)`: the two properties `title` and `count` are added last,
in that order, although `title` is met first by the scan. -/
theorem initQObjectSubType_properties_last_witness :
    scanBases exampleSubModelArgs.bases exampleSubModelArgs.tupleSize 0
      = Outcome.ok (some exampleModelMeta) ∧
    (∀ e ∈ slotEntries exampleSubModelArgs.attrs, ' ' ∈ e.data) ∧
    ∃ r pre, initQObjectSubType exampleSubModelArgs = Outcome.ok r ∧
      r.calls = pre ++ [MoCall.addProperty "title" (PyValue.property 1),
                        MoCall.addProperty "count" (PyValue.property 2)] ∧
      (∀ c ∈ pre, c.isAddProperty = false) := by
  refine ⟨by decide, by decide, ?_⟩
  obtain ⟨r, pre, hr, hcalls, hpre, -⟩ :=
    initQObjectSubType_properties_last exampleSubModelArgs exampleModelMeta
      (by decide) (by decide)
  exact ⟨r, pre, hr, hcalls, hpre⟩

/-- C6: for `class Panel(A, B, C, QWidget)` the tuple of bases has four elements and its
first subtype of `QObject` is the fourth one, `QWidget`; the scan runs `PyTuple_GET_SIZE(args)`
= 3 times, over the indices 0 to 2 only, finds no ancestor, warns and attaches nothing. -/
theorem initQObjectSubType_fourth_base_missed :
    exampleFourBasesArgs.bases.length = 4 ∧
    exampleFourBasesArgs.bases.find? (fun b => b.isQObjectSubtype) = some pyQWidgetType ∧
    scanBases exampleFourBasesArgs.bases exampleFourBasesArgs.tupleSize 0
      = Outcome.ok none ∧
    scanBases exampleFourBasesArgs.bases exampleFourBasesArgs.bases.length 0
      = Outcome.ok (some exampleWidgetMeta) ∧
    initQObjectSubType exampleFourBasesArgs = Outcome.ok
      { warnings := [missingBaseWarning "Panel"], pyErr := none, typeUserData := none,
        calls := [] } := by
  decide

/-- C7 (amended): when the scan of the bases ends with no base descriptor, the function
emits the one warning that names the class and returns normally, with no Python error set;
no descriptor is attached and no signal, slot or property is registered. -/
theorem initQObjectSubType_no_base_warns (args : ClassArgs)
    (hbase : scanBases args.bases args.tupleSize 0 = Outcome.ok none) :
    initQObjectSubType args = Outcome.ok
      { warnings := ["Sub class of QObject not inheriting QObject!? Crash will happen when using "
          ++ args.className ++ "."],
        pyErr := none, typeUserData := none, calls := [] } := by
  simp [initQObjectSubType, hbase, missingBaseWarning]

/-- C7 at `class Panel(A, B, C, QWidget)`, where the scan finds no base descriptor. -/
theorem initQObjectSubType_no_base_warns_witness :
    scanBases exampleFourBasesArgs.bases exampleFourBasesArgs.tupleSize 0
      = Outcome.ok none ∧
    initQObjectSubType exampleFourBasesArgs = Outcome.ok
      { warnings := ["Sub class of QObject not inheriting QObject!? Crash will happen when using "
          ++ exampleFourBasesArgs.className ++ "."],
        pyErr := none, typeUserData := none, calls := [] } :=
  ⟨by decide, initQObjectSubType_no_base_warns exampleFourBasesArgs (by decide)⟩

/-- C7 (as stated, refuted): for a class none of whose bases is a subtype of `QObject` the
function returns normally with a warning and no error set: the failure is not reported to
the caller as an error. -/
theorem initQObjectSubType_no_base_not_reported :
    scanBases exampleNoQObjectArgs.bases exampleNoQObjectArgs.tupleSize 0
      = Outcome.ok none ∧
    initQObjectSubType exampleNoQObjectArgs = Outcome.ok
      { warnings := [missingBaseWarning "Orphan"], pyErr := none, typeUserData := none,
        calls := [] } ∧
    ¬ ReportedAsError (initQObjectSubType exampleNoQObjectArgs) := by
  have h : initQObjectSubType exampleNoQObjectArgs = Outcome.ok
      { warnings := [missingBaseWarning "Orphan"], pyErr := none, typeUserData := none,
        calls := [] } := by decide
  refine ⟨by decide, h, ?_⟩
  rintro ⟨r, hr, hne⟩
  rw [h] at hr
  cases hr
  exact hne rfl

/-- C10 (amended): when the base descriptor is found, the pairs passed to `addSlot`, in
call order, are what `slotPair` gives for the declared entries; for an entry made of a type
`R`, one space and a signature `S`, neither holding a space, the pair `(R, S)` is added if
and only if the base has no slot with the identical signature `S`. -/
theorem initQObjectSubType_slots (args : ClassArgs) (baseMo : QMetaObject)
    (hbase : scanBases args.bases args.tupleSize 0 = Outcome.ok (some baseMo))
    (hwf : ∀ e ∈ slotEntries args.attrs, ' ' ∈ e.data) :
    ∃ r, initQObjectSubType args = Outcome.ok r ∧
      addedSlots r.calls = (slotEntries args.attrs).filterMap (slotPair baseMo) ∧
      ∀ R S : String, ' ' ∉ R.data → ' ' ∉ S.data →
        R ++ " " ++ S ∈ slotEntries args.attrs →
        (slotPair baseMo (R ++ " " ++ S) = if S ∈ baseMo.allSlots then none else some (S, R)) ∧
        (MoCall.addSlot S R ∈ r.calls ↔ S ∉ baseMo.allSlots) := by
  have hlist : addedSlots (args.attrs.flatMap (memberCalls baseMo) ++
      (propertyAttrs args.attrs).map (fun p => MoCall.addProperty p.1 p.2)) =
      (slotEntries args.attrs).filterMap (slotPair baseMo) := by
    rw [addedSlots_append_properties, addedSlots_memberCalls]
  refine ⟨_, initQObjectSubType_eq args baseMo hbase hwf, hlist, ?_⟩
  intro R S hR hS hmem
  have hpair : slotPair baseMo (R ++ " " ++ S) =
      if S ∈ baseMo.allSlots then none else some (S, R) := by
    unfold slotPair
    rw [split_type_signature R S hR hS]
    by_cases h : S ∈ baseMo.allSlots
    · have : ¬ baseMo.indexOfSlot S = -1 := fun e => (indexOfSlot_eq_neg_one _ _).mp e h
      simp [h, this]
    · have : baseMo.indexOfSlot S = -1 := (indexOfSlot_eq_neg_one _ _).mpr h
      simp [h, this]
  refine ⟨hpair, ?_⟩
  rw [← mem_addedSlots, hlist, List.mem_filterMap]
  constructor
  · rintro ⟨e, _, he⟩
    unfold slotPair at he
    split at he
    · split at he
      · rename_i hidx
        injection he with he
        injection he with h1 h2
        subst h1
        exact (indexOfSlot_eq_neg_one _ _).mp hidx
      · cases he
    · cases he
  · intro h
    exact ⟨_, hmem, by rw [hpair, if_neg h]⟩

/-- C10 at `class SubModel(Model)`: the base has the slot `reset()`; of the entries
`void reset()` and `void reset(int)` only the pair for `reset(int)` is added. -/
theorem initQObjectSubType_slots_witness :
    scanBases exampleSubModelArgs.bases exampleSubModelArgs.tupleSize 0
      = Outcome.ok (some exampleModelMeta) ∧
    (∀ e ∈ slotEntries exampleSubModelArgs.attrs, ' ' ∈ e.data) ∧
    ∃ r, initQObjectSubType exampleSubModelArgs = Outcome.ok r ∧
      addedSlots r.calls = [("reset(int)", "void")] ∧
      MoCall.addSlot "reset(int)" "void" ∈ r.calls := by
  refine ⟨by decide, by decide, ?_⟩
  obtain ⟨r, hr, hs, hiff⟩ :=
    initQObjectSubType_slots exampleSubModelArgs exampleModelMeta (by decide) (by decide)
  refine ⟨r, hr, ?_, ?_⟩
  · rw [hs]; decide
  · exact (hiff "void" "reset(int)" (by decide) (by decide) (by decide)).2.mpr (by decide)

/-- C10 (as stated, refuted): for `class Dialog(QWidget)` the base declares the slot name
`close` (as `close()`), yet the entry `void close(int)` is not skipped: the lookup is by
whole signature.  And the entry `int resize(int, int)` contributes the pair
(`int`, `resize(int,`): the signature is cut at its inner space. -/
theorem initQObjectSubType_slot_name_not_compared :
    scanBases exampleDialogArgs.bases exampleDialogArgs.tupleSize 0
      = Outcome.ok (some exampleWidgetMeta) ∧
    slotName "close(int)" = "close" ∧
    declaresSlotName exampleWidgetMeta "close" = true ∧
    initQObjectSubType exampleDialogArgs = Outcome.ok
      { warnings := [], pyErr := none,
        typeUserData := some ("Dialog", exampleWidgetMeta),
        calls := [MoCall.addSlot "close(int)" "void", MoCall.addSlot "resize(int," "int"] } := by
  decide

/-! ### Shutdown -/

theorem visit_eq_filter (bm : BindingManager) (pyQApp : Option Nat) :
    bm.visitAllPyObjects (fun pyObj => destructionVisitor pyObj pyQApp) =
      (bm.visited.filter (fun o =>
          decide (some o.ident ≠ pyQApp) && o.isQObject && o.hasOwnership)).map
        (fun o => TeardownCall.callCppDestructor o.cptr) := by
  unfold BindingManager.visitAllPyObjects
  induction bm.visited with
  | nil => rfl
  | cons w ws ih =>
    rw [List.flatMap_cons, ih]
    by_cases h1 : some w.ident ≠ pyQApp <;> by_cases h2 : w.isQObject = true <;>
      by_cases h3 : w.hasOwnership = true <;>
      simp [destructionVisitor, List.filter_cons, h1, h2, h3]

/-- C8: with no application instance, `destroyQCoreApplication` clears the signal manager
and destroys nothing.  With an instance `a`, after that it calls the C++ destructor on the
native pointer of exactly the visited handles that are not the wrapper of `a`, are
`QObject` instances and have ownership, once each and in visiting order, and `delete app`
is its last call, after all of them; in the example program these are the two owned
widgets. -/
theorem destroyQCoreApplication_calls (bm : BindingManager) :
    destroyQCoreApplication none bm = [TeardownCall.signalManagerClear] ∧
    (∀ a : Nat, destroyQCoreApplication (some a) bm =
      TeardownCall.signalManagerClear ::
        ((bm.visited.filter (fun o =>
            decide (some o.ident ≠ bm.retrieveWrapper a) && o.isQObject && o.hasOwnership)).map
          (fun o => TeardownCall.callCppDestructor o.cptr)
        ++ [TeardownCall.deleteApp a])) ∧
    destroyQCoreApplication (some 100) exampleBindingManager =
      [TeardownCall.signalManagerClear, TeardownCall.callCppDestructor 101,
       TeardownCall.callCppDestructor 104, TeardownCall.deleteApp 100] := by
  refine ⟨rfl, fun a => ?_, by decide⟩
  simp only [destroyQCoreApplication, visit_eq_filter]

/-! ### The name of a wrapped type -/

/-- C9: for the type name `PySide.QtCore.QObject` (21 characters, terminator at index 21)
the loop goes on after it has advanced `typeName` behind the last `.` and reads index 26,
behind the terminator: no name is determined, where the final path segment is `QObject`.
The same happens for `a.b.c`.  For `QtCore.QObject` and for `QObject` all reads stay inside
the name and the result is `QObject`.  When the bytes behind the terminator of `a.b.c` are
`.x`, the loop advances `typeName` a second time, to offset 7, where the name `x` starts. -/
theorem initDynamicMetaObject_reads_past_terminator :
    "PySide.QtCore.QObject".data.length = 21 ∧
    finalSegment "PySide.QtCore.QObject" = "QObject" ∧
    initDynamicMetaObject "PySide.QtCore.QObject" exampleQtObjectMeta
      = Outcome.fault (Fault.readPastTerminator 26) ∧
    initDynamicMetaObject "a.b.c" exampleQtObjectMeta
      = Outcome.fault (Fault.readPastTerminator 6) ∧
    initDynamicMetaObject "QtCore.QObject" exampleQtObjectMeta
      = Outcome.ok ("QObject", exampleQtObjectMeta) ∧
    initDynamicMetaObject "QObject" exampleQtObjectMeta
      = Outcome.ok ("QObject", exampleQtObjectMeta) ∧
    stripLoop ("a.b.c".data ++ [Char.ofNat 0] ++ ".x".data ++ [Char.ofNat 0]) 5 0
      = Outcome.ok 7 := by
  decide

theorem stripLoop_fault_read (mem : List Char) (i off p : Nat)
    (h : stripLoop mem i off = Outcome.fault (Fault.readPastTerminator p)) :
    p ∈ stripReads mem i off ∧ mem.length ≤ p := by
  induction i generalizing off with
  | zero => simp [stripLoop] at h
  | succ i ih =>
    rw [stripLoop] at h
    rw [stripReads]
    cases hg : mem.get? (off + i) with
    | none =>
      simp only [hg] at h
      injection h with h
      injection h with h
      subst h
      refine ⟨by simp, ?_⟩
      rw [List.get?_eq_getElem?] at hg
      exact List.getElem?_eq_none_iff.mp hg
    | some c =>
      simp only [hg] at h
      by_cases hc : c = '.'
      · simp only [hc, if_true] at h ⊢
        obtain ⟨h1, h2⟩ := ih _ h
        exact ⟨List.mem_cons_of_mem _ h1, h2⟩
      · simp only [hc, if_false] at h ⊢
        obtain ⟨h1, h2⟩ := ih _ h
        exact ⟨List.mem_cons_of_mem _ h1, h2⟩

theorem stripLoop_ok_of_reads_inside (mem : List Char) (i off : Nat)
    (h : ∀ p ∈ stripReads mem i off, p < mem.length) :
    ∃ o, stripLoop mem i off = Outcome.ok o := by
  induction i generalizing off with
  | zero => exact ⟨off, rfl⟩
  | succ i ih =>
    rw [stripReads] at h
    rw [stripLoop]
    cases hg : mem.get? (off + i) with
    | none =>
      exfalso
      have hlt := h (off + i) (by rw [hg]; simp)
      rw [List.get?_eq_getElem?] at hg
      have := List.getElem?_eq_none_iff.mp hg
      omega
    | some c =>
      simp only [hg] at h ⊢
      by_cases hc : c = '.'
      · simp only [hc, if_true] at h ⊢
        exact ih _ (fun p hp => h p (List.mem_cons_of_mem _ hp))
      · simp only [hc, if_false] at h ⊢
        exact ih _ (fun p hp => h p (List.mem_cons_of_mem _ hp))

theorem stripReads_suffix_run (pre q : List Char) (hq : '.' ∉ q) (k : Nat)
    (hk : k ≤ q.length) (x : Nat)
    (hx : x ∈ stripReads (pre ++ '.' :: (q ++ [Char.ofNat 0])) (pre.length + 1) 0) :
    x ∈ stripReads (pre ++ '.' :: (q ++ [Char.ofNat 0])) (pre.length + 1 + k) 0 := by
  induction k with
  | zero => exact hx
  | succ k ih =>
    have hk' : k < q.length := by omega
    have hget : (pre ++ '.' :: (q ++ [Char.ofNat 0])).get? (0 + (pre.length + 1 + k))
        = some (q[k]) := by
      rw [List.get?_eq_getElem?]
      have h1 : 0 + (pre.length + 1 + k) = pre.length + (k + 1) := by omega
      rw [h1, List.getElem?_append_right (by omega)]
      simp [List.getElem?_append_left, hk']
    have hne : ¬ q[k] = '.' := fun e => hq (e ▸ List.getElem_mem hk')
    have hstep : pre.length + 1 + (k + 1) = (pre.length + 1 + k) + 1 := by omega
    rw [hstep, stripReads, hget]
    simp only [hne, if_false]
    exact List.mem_cons_of_mem _ (ih (by omega))

/-- A dotted name whose part in front of the last `.` is longer than the final segment
plus one: the loop reads at twice the index of that `.`, which lies behind the
terminator. -/
theorem stripReads_past_terminator (pre q : List Char) (hq : '.' ∉ q)
    (hlen : q.length + 1 < pre.length) :
    2 * pre.length ∈
        stripReads (pre ++ '.' :: (q ++ [Char.ofNat 0])) (pre.length + 1 + q.length) 0 ∧
      pre.length + 1 + q.length < 2 * pre.length := by
  refine ⟨?_, by omega⟩
  apply stripReads_suffix_run pre q hq q.length (Nat.le_refl _)
  have hdot : (pre ++ '.' :: (q ++ [Char.ofNat 0])).get? (0 + pre.length) = some '.' := by
    rw [List.get?_eq_getElem?, Nat.zero_add, List.getElem?_append_right (Nat.le_refl _)]
    simp
  rw [stripReads, hdot]
  simp only [if_true]
  apply List.mem_cons_of_mem
  obtain ⟨j, hj⟩ : ∃ j, pre.length = j + 1 := ⟨pre.length - 1, by omega⟩
  have h2 : 2 * pre.length = 0 + pre.length + 1 + j := by omega
  rw [h2]
  generalize 0 + pre.length + 1 = off
  rw [hj, stripReads]
  cases (pre ++ '.' :: (q ++ [Char.ofNat 0])).get? (off + j) with
  | none => simp
  | some c => by_cases hc : c = '.' <;> simp [hc]

/-- C11: for the type name `PySide.QtCore.QObject` (length 21, terminator at index 21)
the loop reads the indices 20 down to 13, advances `typeName` behind the `.` at index 13 and
reads next at index 26, behind the terminator; so not every position read lies between 0
and 21.  For `a.b.c` (length 5) it reads 4, 3 and then 6. -/
theorem initDynamicMetaObject_read_positions :
    "PySide.QtCore.QObject".data.length = 21 ∧
    nameReads "PySide.QtCore.QObject" = [20, 19, 18, 17, 16, 15, 14, 13, 26] ∧
    ¬ (∀ p ∈ nameReads "PySide.QtCore.QObject", p ≤ "PySide.QtCore.QObject".data.length) ∧
    nameReads "a.b.c" = [4, 3, 6] ∧
    ¬ (∀ p ∈ nameReads "a.b.c", p ≤ "a.b.c".data.length) := by
  decide

end PySide
